import Mathlib

/-!
# Verification of the tool-call conversion engine of llm-toolcall-proxy

This file gives a shallow embedding of the converter / streaming logic of the
proxy (files `src/converters/*.py`, `src/app.py`) and settles the frozen
claims about it.

Conventions of the embedding:

* Python strings are modelled as `List Char`.  The helper `lit` turns a Lean
  string literal into that representation.
* Python's `re.sub`/`re.findall` calls in the source all use patterns of the
  shape literal-open + lazy gap + literal-close (with `re.DOTALL`); they are
  embedded as left-to-right scanners that pair each opening marker with the
  nearest closing marker after it, which is exactly the leftmost-match /
  lazy-quantifier semantics of those patterns.  Where a pattern allows deeper
  backtracking (noted at the definition), the embedding resolves lazy groups
  to the nearest closing delimiter.
* `hash()` of Python is build-dependent (string hashing is randomized), so the
  embedding is parameterized by an arbitrary hash function `Env.pyHash`;
  likewise `time.time()` is the parameter `Env.now` and the configuration flag
  `REMOVE_THINK_TAGS` is `Env.removeThink`.
* Characters are treated at ASCII scope: `str.lower`, `str.strip` and `\s`
  are embedded via their ASCII behaviour, which coincides with Python on all
  inputs appearing in the claims.
-/

/-- Coerce a Lean string literal to the `List Char` representation used by the
embedding. -/
def lit (s : String) : List Char := s.data

/-- Python `\s` / `str.strip` whitespace (ASCII scope): space, tab, newline,
carriage return, vertical tab, form feed. -/
def isPyWs (c : Char) : Bool :=
  c = ' ' || c = '\t' || c = '\n' || c = '\r' || c = Char.ofNat 11 || c = Char.ofNat 12

/-- `pat` occurs as a prefix of `s`. -/
def isPre (pat s : List Char) : Bool := List.isPrefixOf pat s

/-- `pat` occurs as a substring of `s` (Python `pat in s`). -/
def containsSub (pat : List Char) : List Char → Bool
  | [] => pat.isEmpty
  | c :: rest => isPre pat (c :: rest) || containsSub pat rest

/-- Split `s` at the first occurrence of `pat`: returns the part before the
occurrence and the part after it (`s = before ++ pat ++ after`). -/
def splitSub (pat : List Char) : List Char → Option (List Char × List Char)
  | [] => if pat.isEmpty then some ([], []) else none
  | c :: rest =>
    if isPre pat (c :: rest) then some ([], (c :: rest).drop pat.length)
    else
      match splitSub pat rest with
      | some (b, a) => some (c :: b, a)
      | none => none

/-- Split `s` at the first occurrence of `pat`, keeping the occurrence on the
right: returns `(before, suffix)` with `s = before ++ suffix` and `suffix`
starting with `pat`. -/
def splitSubIncl (pat : List Char) : List Char → Option (List Char × List Char)
  | [] => if pat.isEmpty then some ([], []) else none
  | c :: rest =>
    if isPre pat (c :: rest) then some ([], c :: rest)
    else
      match splitSubIncl pat rest with
      | some (b, a) => some (c :: b, a)
      | none => none

/-- Left trim by Python whitespace. -/
def trimL (s : List Char) : List Char := s.dropWhile isPyWs

/-- Right trim by Python whitespace. -/
def trimR (s : List Char) : List Char := (trimL s.reverse).reverse

/-- Python `str.strip()` (ASCII whitespace scope). -/
def pyStrip (s : List Char) : List Char := trimR (trimL s)

/-- ASCII lower-casing of one character (Python `str.lower` at ASCII scope). -/
def asciiLower (c : Char) : Char :=
  if 'A' ≤ c && c ≤ 'Z' then Char.ofNat (c.toNat + 32) else c

/-- Python `str.lower()` (ASCII scope). -/
def lowerStr (s : List Char) : List Char := s.map asciiLower

/-- The part of `s` before the first newline.  `re.match` patterns of the
shape `.*pat.*` (no `re.DOTALL`) can only see this part, since `.` does not
match a newline. -/
def firstLine (s : List Char) : List Char := s.takeWhile (fun c => c ≠ '\n')

/-- `re.match(".*pat.*", s)` for a literal `pat`: `pat` must occur within the
first line of `s`. -/
def reMatchContains (pat s : List Char) : Bool := containsSub pat (firstLine s)

/-- Decimal digits of `n` (auxiliary, fuel-based so that it reduces in the
kernel). -/
def natDigitsAux : Nat → Nat → List Char
  | 0, _ => []
  | fuel + 1, n =>
    if n = 0 then []
    else natDigitsAux fuel (n / 10) ++ [Char.ofNat (48 + n % 10)]

/-- Decimal representation of a natural number (Python `str(n)` for `n ≥ 0`;
all hashes in the source are taken `% 1000000000`, hence non-negative). -/
def natToStr (n : Nat) : List Char :=
  if n = 0 then ['0'] else natDigitsAux (n + 1) n

/-- Environment of ambient effects the source code relies on: Python's
(randomized) string `hash`, the current time used for synthesized chunks, and
the `REMOVE_THINK_TAGS` configuration flag (`config.py`, default true). -/
structure Env where
  pyHash : List Char → Nat
  now : Int
  removeThink : Bool

/-- A fixed environment for concrete evaluations: any concrete hash function
is a legitimate instance since Python randomizes string hashing per process. -/
def env0 : Env := ⟨fun _ => 0, 0, true⟩

/-! ## JSON (`json.loads` / `json.dumps`)

The converters call `json.loads` to validate/decode argument payloads and
`json.dumps(..., ensure_ascii=False)` to re-serialize them.  JSON values are
modelled by `Json`; numbers keep their raw lexeme (the claims never inspect a
serialized float, so Python's float canonicalization — `1.50` → `1.5` — is
not modelled; classification of a payload as valid/invalid JSON, which the
claims do depend on, follows the full grammar accepted by Python's
`json.loads`, including `NaN`/`Infinity`). -/

/-- A JSON value as produced by Python's `json.loads`. -/
inductive Json where
  | null : Json
  | boolean : Bool → Json
  | num : List Char → Json
  | strv : List Char → Json
  | arr : List Json → Json
  | obj : List (List Char × Json) → Json

/-- Whitespace skipped by Python's JSON decoder (space, tab, newline, CR). -/
def isJsonWs (c : Char) : Bool := c = ' ' || c = '\t' || c = '\n' || c = '\r'

/-- Skip JSON whitespace. -/
def jsonSkipWs (s : List Char) : List Char := s.dropWhile isJsonWs

/-- Insert a key into an object field list with Python-dict semantics: a
repeated key keeps its first position but takes the latest value. -/
def objInsert (fields : List (List Char × Json)) (k : List Char) (v : Json) :
    List (List Char × Json) :=
  match fields with
  | [] => [(k, v)]
  | (k0, v0) :: rest =>
    if k0 = k then (k0, v) :: rest else (k0, v0) :: objInsert rest k v

/-- Look up a key in an object field list (Python `dict.get`). -/
def jGet (fields : List (List Char × Json)) (k : List Char) : Option Json :=
  match fields with
  | [] => none
  | (k0, v0) :: rest => if k0 = k then some v0 else jGet rest k

def isHexDigit (c : Char) : Bool :=
  ('0' ≤ c && c ≤ '9') || ('a' ≤ c && c ≤ 'f') || ('A' ≤ c && c ≤ 'F')

def hexVal (c : Char) : Nat :=
  if '0' ≤ c && c ≤ '9' then c.toNat - 48
  else if 'a' ≤ c && c ≤ 'f' then c.toNat - 87
  else if 'A' ≤ c && c ≤ 'F' then c.toNat - 55
  else 0

/-- Lex the digits `[0-9]*` prefix. -/
def lexDigits (s : List Char) : List Char × List Char :=
  (s.takeWhile Char.isDigit, s.dropWhile Char.isDigit)

/-- Lex a JSON number after an optional sign has been consumed:
`(0|[1-9][0-9]*)(\.[0-9]+)?([eE][-+]?[0-9]+)?`.  Returns the lexeme and the
rest. -/
def lexNumBody (s : List Char) : Option (List Char × List Char) :=
  match s with
  | [] => none
  | c :: rest =>
    if c = '0' then some ([c], rest)
    else if c.isDigit then
      let (ds, r) := lexDigits rest
      some (c :: ds, r)
    else none

/-- Lex the optional fraction part `(\.[0-9]+)?`. -/
def lexFrac (s : List Char) : Option (List Char × List Char) :=
  match s with
  | '.' :: rest =>
    let (ds, r) := lexDigits rest
    if ds.isEmpty then none else some ('.' :: ds, r)
  | _ => some ([], s)

/-- Lex the optional exponent part `([eE][-+]?[0-9]+)?`. -/
def lexExp (s : List Char) : Option (List Char × List Char) :=
  match s with
  | c :: rest =>
    if c = 'e' || c = 'E' then
      let (sign, r1) := match rest with
        | d :: r => if d = '+' || d = '-' then ([d], r) else ([], rest)
        | [] => ([], rest)
      let (ds, r2) := lexDigits r1
      if ds.isEmpty then none else some (c :: sign ++ ds, r2)
    else some ([], s)
  | [] => some ([], s)

/-- Lex a full JSON number starting at `s` (sign already not consumed). -/
def lexNumber (s : List Char) : Option (List Char × List Char) :=
  let (sign, s1) := match s with
    | '-' :: r => (['-'], r)
    | _ => (([] : List Char), s)
  match lexNumBody s1 with
  | none => none
  | some (ip, s2) =>
    match lexFrac s2 with
    | none => none
    | some (fp, s3) =>
      match lexExp s3 with
      | none => none
      | some (ep, s4) => some (sign ++ ip ++ fp ++ ep, s4)

/-- Parse a JSON string body after the opening quote.  Python's strict decoder
rejects raw control characters and malformed escapes; `\uXXXX` escapes are
decoded to the character when representable (surrogates, which only affect the
decoded value and never the valid/invalid classification, are replaced). -/
def jsonLexString : Nat → List Char → Option (List Char × List Char)
  | 0, _ => none
  | _, [] => none
  | fuel + 1, c :: rest =>
    if c = '"' then some ([], rest)
    else if c = '\\' then
      match rest with
      | [] => none
      | e :: r2 =>
        let dec : Option (Char × List Char) :=
          if e = '"' then some ('"', r2)
          else if e = '\\' then some ('\\', r2)
          else if e = '/' then some ('/', r2)
          else if e = 'b' then some (Char.ofNat 8, r2)
          else if e = 'f' then some (Char.ofNat 12, r2)
          else if e = 'n' then some ('\n', r2)
          else if e = 'r' then some ('\r', r2)
          else if e = 't' then some ('\t', r2)
          else if e = 'u' then
            match r2 with
            | h1 :: h2 :: h3 :: h4 :: r3 =>
              if isHexDigit h1 && isHexDigit h2 && isHexDigit h3 && isHexDigit h4 then
                let n := ((hexVal h1 * 16 + hexVal h2) * 16 + hexVal h3) * 16 + hexVal h4
                some (if n.isValidChar then Char.ofNat n else Char.ofNat 65533, r3)
              else none
            | _ => none
          else none
        match dec with
        | none => none
        | some (ch, r3) =>
          match jsonLexString fuel r3 with
          | none => none
          | some (body, rest2) => some (ch :: body, rest2)
    else if c.toNat < 32 then none
    else
      match jsonLexString fuel rest with
      | none => none
      | some (body, rest2) => some (c :: body, rest2)

mutual

/-- Parse one JSON value (leading whitespace skipped here), returning the
value and the unconsumed rest. -/
def jsonParseVal : Nat → List Char → Option (Json × List Char)
  | 0, _ => none
  | fuel + 1, s =>
    match jsonSkipWs s with
    | [] => none
    | c :: rest =>
      if c = 'n' then
        if isPre (lit "ull") rest then some (Json.null, rest.drop 3) else none
      else if c = 't' then
        if isPre (lit "rue") rest then some (Json.boolean true, rest.drop 3) else none
      else if c = 'f' then
        if isPre (lit "alse") rest then some (Json.boolean false, rest.drop 4) else none
      else if c = 'N' then
        if isPre (lit "aN") rest then some (Json.num (lit "NaN"), rest.drop 2) else none
      else if c = 'I' then
        if isPre (lit "nfinity") rest then some (Json.num (lit "Infinity"), rest.drop 7)
        else none
      else if c = '-' && isPre (lit "Infinity") rest then
        some (Json.num (lit "-Infinity"), rest.drop 8)
      else if c = '"' then
        match jsonLexString fuel rest with
        | none => none
        | some (body, r2) => some (Json.strv body, r2)
      else if c = '[' then
        match jsonSkipWs rest with
        | ']' :: r2 => some (Json.arr [], r2)
        | _ => jsonParseArrItems fuel rest []
      else if c = '{' then
        match jsonSkipWs rest with
        | '}' :: r2 => some (Json.obj [], r2)
        | _ => jsonParseObjItems fuel rest []
      else
        match lexNumber (c :: rest) with
        | none => none
        | some (lex, r2) => some (Json.num lex, r2)

/-- Parse the items of a JSON array (after `[`, at least one item). -/
def jsonParseArrItems : Nat → List Char → List Json → Option (Json × List Char)
  | 0, _, _ => none
  | fuel + 1, s, acc =>
    match jsonParseVal fuel s with
    | none => none
    | some (v, r) =>
      match jsonSkipWs r with
      | ',' :: r2 => jsonParseArrItems fuel r2 (acc ++ [v])
      | ']' :: r2 => some (Json.arr (acc ++ [v]), r2)
      | _ => none

/-- Parse the members of a JSON object (after `{`, at least one member). -/
def jsonParseObjItems : Nat → List Char → List (List Char × Json) →
    Option (Json × List Char)
  | 0, _, _ => none
  | fuel + 1, s, acc =>
    match jsonSkipWs s with
    | '"' :: r1 =>
      match jsonLexString fuel r1 with
      | none => none
      | some (key, r2) =>
        match jsonSkipWs r2 with
        | ':' :: r3 =>
          match jsonParseVal fuel r3 with
          | none => none
          | some (v, r4) =>
            match jsonSkipWs r4 with
            | ',' :: r5 => jsonParseObjItems fuel r5 (objInsert acc key v)
            | '}' :: r5 => some (Json.obj (objInsert acc key v), r5)
            | _ => none
        | _ => none
    | _ => none

end

/-- Python `json.loads`: parse one value, then only whitespace may remain. -/
def jsonLoads (s : List Char) : Option Json :=
  match jsonParseVal (s.length + 1) s with
  | none => none
  | some (v, rest) => if (jsonSkipWs rest).isEmpty then some v else none

/-- Escape one character as in `json.dumps(..., ensure_ascii=False)`. -/
def jsonEscapeChar (c : Char) : List Char :=
  if c = '"' then lit "\\\""
  else if c = '\\' then lit "\\\\"
  else if c = '\n' then lit "\\n"
  else if c = '\r' then lit "\\r"
  else if c = '\t' then lit "\\t"
  else if c = Char.ofNat 8 then lit "\\b"
  else if c = Char.ofNat 12 then lit "\\f"
  else if c.toNat < 32 then
    lit "\\u00" ++
      [(lit "0123456789abcdef").getD (c.toNat / 16) '0',
       (lit "0123456789abcdef").getD (c.toNat % 16) '0']
  else [c]

/-- `json.dumps` of a string value (`ensure_ascii=False`). -/
def jsonEncodeStr (s : List Char) : List Char :=
  '"' :: s.foldr (fun c acc => jsonEscapeChar c ++ acc) ['"']

/-- Join serialized items with the default `", "` separator. -/
def joinComma (xs : List (List Char)) : List Char :=
  match xs with
  | [] => []
  | [x] => x
  | x :: rest => x ++ lit ", " ++ joinComma rest

/-- `json.dumps(v, ensure_ascii=False)` with the default separators
`(", ", ": ")`, fuel-based over the structural size of the value. -/
def jsonDumpF : Nat → Json → List Char
  | _, Json.null => lit "null"
  | _, Json.boolean true => lit "true"
  | _, Json.boolean false => lit "false"
  | _, Json.num raw => raw
  | _, Json.strv s => jsonEncodeStr s
  | 0, Json.arr _ => []
  | 0, Json.obj _ => []
  | fuel + 1, Json.arr xs => '[' :: joinComma (xs.map (jsonDumpF fuel)) ++ [']']
  | fuel + 1, Json.obj fs =>
    '{' :: joinComma (fs.map (fun kv => jsonEncodeStr kv.1 ++ lit ": " ++ jsonDumpF fuel kv.2)) ++ ['}']

/-- `json.dumps(v, ensure_ascii=False)`.  The fuel mirrors Python's recursion
limit: `json.dumps` raises `RecursionError` beyond a nesting depth of about
1000, so values that deep are outside the embedding. -/
def jsonDump (v : Json) : List Char := jsonDumpF 1000 v

/-! ## Marker removal (`re.sub`) and the content sanitizer

All `re.sub` patterns of the source have the shape
literal-open + `.*?` + literal-close (with `re.DOTALL`) or are plain
literals.  `re.sub` scans once, left to right: a match starts at an
occurrence of the open marker that has a close marker somewhere after it and
extends to the nearest such close marker; scanning resumes after the match,
so text spliced together by a removal is not rescanned.  The scanners below
are fuel-based (one fuel unit per removed match) so that they reduce inside
the kernel; `fuel = length of the input` always suffices since every match
consumes at least one character. -/

/-- One pass of `re.sub(open + ".*?" + close, "", s, flags=re.DOTALL)`,
fuel-based. -/
def subDelimF (opTag clTag : List Char) : Nat → List Char → List Char
  | 0, s => s
  | fuel + 1, s =>
    if opTag.isEmpty || clTag.isEmpty then s
    else
      match splitSub opTag s with
      | none => s
      | some (before, afterOpen) =>
        match splitSub clTag afterOpen with
        | none => s
        | some (_, afterClose) => before ++ subDelimF opTag clTag fuel afterClose

/-- `re.sub(open + ".*?" + close, "", s, flags=re.DOTALL)`. -/
def subDelim (opTag clTag s : List Char) : List Char :=
  subDelimF opTag clTag s.length s

/-- `re.sub(pat, "", s)` for a literal `pat`, fuel-based. -/
def removeAllF (pat : List Char) : Nat → List Char → List Char
  | 0, s => s
  | fuel + 1, s =>
    if pat.isEmpty then s
    else
      match splitSub pat s with
      | none => s
      | some (before, after) => before ++ removeAllF pat fuel after

/-- `re.sub(pat, "", s)` for a literal `pat`. -/
def removeAll (pat s : List Char) : List Char := removeAllF pat s.length s

/-- `re.search(open + ".*?" + close, s, re.DOTALL)` succeeds: some open
marker has a close marker after it. -/
def existsDelimPair (opTag clTag s : List Char) : Bool :=
  match splitSub opTag s with
  | none => false
  | some (_, afterOpen) => containsSub clTag afterOpen

/-- Match of `<think>\s*</think>` at the head of `s`: returns the rest after
the match. -/
def emptyThinkAt (s : List Char) : Option (List Char) :=
  if isPre (lit "<think>") s then
    let r := (s.drop 7).dropWhile isPyWs
    if isPre (lit "</think>") r then some (r.drop 8) else none
  else none

/-- Find the first match of `<think>\s*</think>` in `s`: returns the part
before the match and the part after it. -/
def findEmptyThink : List Char → Option (List Char × List Char)
  | [] => none
  | c :: rest =>
    match emptyThinkAt (c :: rest) with
    | some after => some ([], after)
    | none =>
      match findEmptyThink rest with
      | some (b, a) => some (c :: b, a)
      | none => none

/-- One fuel-based pass of `re.sub(r"<think>\s*</think>", "", s, re.DOTALL)`. -/
def removeEmptyThinkF : Nat → List Char → List Char
  | 0, s => s
  | fuel + 1, s =>
    match findEmptyThink s with
    | none => s
    | some (b, a) => b ++ removeEmptyThinkF fuel a

/-- `ToolCallConverter._remove_empty_think_tags` (`base.py`): the shared
content sanitizer, `re.sub(r"<think>\s*</think>", "", content, re.DOTALL)`.
It applies regardless of the `REMOVE_THINK_TAGS` flag. -/
def removeEmptyThink (s : List Char) : List Char := removeEmptyThinkF s.length s

/-- `s` contains a `<think>\s*</think>` span (an empty or whitespace-only
think tag pair). -/
def hasEmptyThink (s : List Char) : Bool := (findEmptyThink s).isSome

/-- `_remove_orphaned_think_tags` (`glm.py` / `qwen3.py`, identical logic):
character scan deleting each `<think>` that has no `</think>` anywhere after
it, fuel-based (a unit of fuel per consumed character or skipped tag). -/
def removeOrphanedThinkF : Nat → List Char → List Char
  | 0, s => s
  | _, [] => []
  | fuel + 1, c :: rest =>
    if isPre (lit "<think>") (c :: rest) && !containsSub (lit "</think>") (rest.drop 6) then
      removeOrphanedThinkF fuel (rest.drop 6)
    else c :: removeOrphanedThinkF fuel rest

/-- `_remove_orphaned_think_tags` (`glm.py` / `qwen3.py`). -/
def removeOrphanedThink (s : List Char) : List Char :=
  removeOrphanedThinkF s.length s

/-! ## The converters

Each converter contributes `can_handle_model`, `parse_tool_calls`,
`has_partial_tool_call`, `is_complete_tool_call` and `_clean_content`. -/

/-- The function member of a standard OpenAI tool call. -/
structure FnCall where
  name : List Char
  arguments : List Char
deriving DecidableEq

/-- A standard OpenAI tool call as built by the converters:
`{id, type: "function", function: {name, arguments}}`. -/
structure ToolCall where
  id : List Char
  type : List Char
  function : FnCall
deriving DecidableEq

/-- `str(hash(key) % 1000000000)`: the id derivation shared by all
converters, with the process hash abstracted by `Env.pyHash`. -/
def hashId (env : Env) (key : List Char) : List Char :=
  natToStr (env.pyHash key % 1000000000)

/-! ### Model matching (`can_handle_model`) -/

/-- `GLMToolCallConverter.can_handle_model`: patterns
`glm-.*`, `chatglm-.*`, `.*glm.*` matched case-insensitively with
`re.match`. -/
def glmCanHandle (name : List Char) : Bool :=
  if name.isEmpty then false
  else
    let ml := lowerStr name
    isPre (lit "glm-") ml || isPre (lit "chatglm-") ml || reMatchContains (lit "glm") ml

/-- `Qwen3ToolCallConverter.can_handle_model`: patterns `.*qwen3.*`,
`.*jan[-_]nano.*`. -/
def qwen3CanHandle (name : List Char) : Bool :=
  if name.isEmpty then false
  else
    let ml := lowerStr name
    reMatchContains (lit "qwen3") ml || reMatchContains (lit "jan-nano") ml ||
      reMatchContains (lit "jan_nano") ml

/-- `Qwen3CoderToolCallConverter.can_handle_model`: pattern
`.*qwen3[-_]coder.*`. -/
def qwen3CoderCanHandle (name : List Char) : Bool :=
  if name.isEmpty then false
  else
    let ml := lowerStr name
    reMatchContains (lit "qwen3-coder") ml || reMatchContains (lit "qwen3_coder") ml

/-- `OpenAIToolCallConverter.can_handle_model`: patterns `gpt-.*`,
`openai/gpt-.*`, `text-davinci-.*`, `code-davinci-.*`. -/
def openaiCanHandle (name : List Char) : Bool :=
  if name.isEmpty then false
  else
    let ml := lowerStr name
    isPre (lit "gpt-") ml || isPre (lit "openai/gpt-") ml ||
      isPre (lit "text-davinci-") ml || isPre (lit "code-davinci-") ml

/-- `ClaudeToolCallConverter.can_handle_model`: patterns `claude-.*`,
`anthropic/claude-.*`, `.*claude.*`. -/
def claudeCanHandle (name : List Char) : Bool :=
  if name.isEmpty then false
  else
    let ml := lowerStr name
    isPre (lit "claude-") ml || isPre (lit "anthropic/claude-") ml ||
      reMatchContains (lit "claude") ml

/-- `DevstralToolCallConverter.can_handle_model`: pattern `.*devstral.*`
(listed twice in the source). -/
def devstralCanHandle (name : List Char) : Bool :=
  if name.isEmpty then false
  else reMatchContains (lit "devstral") (lowerStr name)

/-! ### Partial / complete detection -/

/-- `GLMToolCallConverter.has_partial_tool_call`: any legacy or
`[TOOL_REQUEST]` marker occurs. -/
def glmHasPartial (content : List Char) : Bool :=
  containsSub (lit "<tool_call>") content || containsSub (lit "</tool_call>") content ||
  containsSub (lit "<arg_key>") content || containsSub (lit "</arg_key>") content ||
  containsSub (lit "<arg_value>") content || containsSub (lit "</arg_value>") content ||
  containsSub (lit "[TOOL_REQUEST]") content || containsSub (lit "[END_TOOL_REQUEST]") content

/-- `GLMToolCallConverter.is_complete_tool_call`. -/
def glmIsComplete (content : List Char) : Bool :=
  existsDelimPair (lit "<tool_call>") (lit "</tool_call>") content ||
  existsDelimPair (lit "[TOOL_REQUEST]") (lit "[END_TOOL_REQUEST]") content

/-- `Qwen3ToolCallConverter.has_partial_tool_call`. -/
def qwen3HasPartial (content : List Char) : Bool :=
  containsSub (lit "<tool_call>") content || containsSub (lit "</tool_call>") content

/-- `Qwen3ToolCallConverter.is_complete_tool_call`. -/
def qwen3IsComplete (content : List Char) : Bool :=
  existsDelimPair (lit "<tool_call>") (lit "</tool_call>") content

/-- `DevstralToolCallConverter.has_partial_tool_call`. -/
def devstralHasPartial (content : List Char) : Bool :=
  containsSub (lit "[TOOL_CALLS]") content

/-- `DevstralToolCallConverter.is_complete_tool_call`: the search pattern
`\[TOOL_CALLS\](.*?)\[ARGS\](.*?)(?=\[TOOL_CALLS\]|$)` matches iff some
`[TOOL_CALLS]` has `[ARGS]` after it (the lookahead always succeeds at the
end of input). -/
def devstralIsComplete (content : List Char) : Bool :=
  existsDelimPair (lit "[TOOL_CALLS]") (lit "[ARGS]") content

/-! ### Content cleaning (`_clean_content`) -/

/-- `GLMToolCallConverter._clean_content`: remove legacy blocks, remove
`[TOOL_REQUEST]` blocks, remove complete think pairs when the
`REMOVE_THINK_TAGS` flag is set, remove every `</think>` (the code labels
this step "orphaned closing tags" but it removes all of them), remove
orphaned `<think>` tags, and strip. -/
def glmClean (removeThink : Bool) (content : List Char) : List Char :=
  let c1 := subDelim (lit "<tool_call>") (lit "</tool_call>") content
  let c2 := subDelim (lit "[TOOL_REQUEST]") (lit "[END_TOOL_REQUEST]") c1
  let c3 := if removeThink then subDelim (lit "<think>") (lit "</think>") c2 else c2
  let c4 := removeAll (lit "</think>") c3
  let c5 := removeOrphanedThink c4
  pyStrip c5

/-- `Qwen3ToolCallConverter._clean_content`: remove `<tool_call>` blocks,
remove complete think pairs when the flag is set, remove orphaned `<think>`
tags, and strip (no removal of bare `</think>` tags, unlike GLM). -/
def qwen3Clean (removeThink : Bool) (content : List Char) : List Char :=
  let c1 := subDelim (lit "<tool_call>") (lit "</tool_call>") content
  let c2 := if removeThink then subDelim (lit "<think>") (lit "</think>") c1 else c1
  let c3 := removeOrphanedThink c2
  pyStrip c3

/-! ### Parsing (`parse_tool_calls`) -/

/-- Lazy part of `\{.*?\}\s*` + close tag: given the text after an opening
brace, find the first `}` that is followed by optional whitespace and the
closing tag; returns the text between the braces and the rest after the
closing tag. -/
def lazyBraceClose (clTag : List Char) : List Char → Option (List Char × List Char)
  | [] => none
  | c :: rest =>
    if c = '}' && isPre clTag (rest.dropWhile isPyWs) then
      some ([], (rest.dropWhile isPyWs).drop clTag.length)
    else
      match lazyBraceClose clTag rest with
      | some (inner, rem) => some (c :: inner, rem)
      | none => none

/-- `re.findall(open + "\s*(\{.*?\})\s*" + close, content, re.DOTALL)`:
the JSON-object groups of the wrapped-payload patterns used by the Qwen3
(`<tool_call>…</tool_call>`) and GLM (`[TOOL_REQUEST]…[END_TOOL_REQUEST]`)
converters, in document order. -/
def scanWrappedJsonF (opTag clTag : List Char) : Nat → List Char → List (List Char)
  | 0, _ => []
  | fuel + 1, s =>
    match splitSub opTag s with
    | none => []
    | some (_, afterOpen) =>
      match afterOpen.dropWhile isPyWs with
      | '{' :: r2 =>
        match lazyBraceClose clTag r2 with
        | some (inner, rem) =>
          ('{' :: inner ++ ['}']) :: scanWrappedJsonF opTag clTag fuel rem
        | none => scanWrappedJsonF opTag clTag fuel afterOpen
      | _ => scanWrappedJsonF opTag clTag fuel afterOpen

/-- Fuel wrapper for `scanWrappedJsonF`. -/
def scanWrappedJson (opTag clTag s : List Char) : List (List Char) :=
  scanWrappedJsonF opTag clTag s.length s

/-- `payload.get(k, dflt)` for the string-valued fields the converters read.
A non-string value at the key only ever flows into an f-string/output value
in the source; it is represented by its serialization. -/
def jGetStrOr (fields : List (List Char × Json)) (k dflt : List Char) : List Char :=
  match jGet fields k with
  | some (Json.strv s) => s
  | some v => jsonDump v
  | none => dflt

/-- `Qwen3ToolCallConverter.parse_tool_calls`: each
`<tool_call>{…}</tool_call>` block whose payload is valid JSON becomes one
call; a block with invalid JSON is skipped (the source comment:
"Invalid JSON – skip this block").  The id key is
`f"{name}_{i}_{len(tool_calls)}"` with `i` the match index. -/
def qwen3Parse (env : Env) (content : List Char) : List ToolCall :=
  (((scanWrappedJson (lit "<tool_call>") (lit "</tool_call>") content).foldl
    (fun (acc : List ToolCall × Nat) g =>
      match jsonLoads (pyStrip g) with
      | some (Json.obj fs) =>
        let name := jGetStrOr fs (lit "name") []
        let args := (jGet fs (lit "arguments")).getD (Json.obj [])
        (acc.1 ++ [⟨hashId env (name ++ '_' :: natToStr acc.2 ++ '_' :: natToStr acc.1.length),
                    lit "function", ⟨name, jsonDump args⟩⟩], acc.2 + 1)
      | some _ => (acc.1, acc.2 + 1)
      | none => (acc.1, acc.2 + 1))
    ([], 0))).1

/-- The `[TOOL_REQUEST]` part of `GLMToolCallConverter.parse_tool_calls`:
JSON-wrapped blocks, invalid JSON skipped; the id key is
`f"{name or 'unknown'}_{i}"`. -/
def glmRequestCalls (env : Env) (content : List Char) : List ToolCall :=
  (((scanWrappedJson (lit "[TOOL_REQUEST]") (lit "[END_TOOL_REQUEST]") content).foldl
    (fun (acc : List ToolCall × Nat) g =>
      match jsonLoads (pyStrip g) with
      | some (Json.obj fs) =>
        let hashName := jGetStrOr fs (lit "name") (lit "unknown")
        let name := jGetStrOr fs (lit "name") []
        let args := (jGet fs (lit "arguments")).getD (Json.obj [])
        (acc.1 ++ [⟨hashId env (hashName ++ '_' :: natToStr acc.2),
                    lit "function", ⟨name, jsonDump args⟩⟩], acc.2 + 1)
      | some _ => (acc.1, acc.2 + 1)
      | none => (acc.1, acc.2 + 1))
    ([], 0))).1

/-- The pairs group of the GLM legacy pattern:
`(?:<arg_key>.*?</arg_key>\s*<arg_value>.*?</arg_value>\s*)+\s*</tool_call>`
starting at a position that begins with `<arg_key>`.  Lazy groups are
resolved to the nearest closing delimiter.  Returns the key/value pairs and
the rest after `</tool_call>`. -/
def glmPairsF : Nat → List Char → Option (List (List Char × List Char) × List Char)
  | 0, _ => none
  | fuel + 1, s =>
    if isPre (lit "<arg_key>") s then
      match splitSub (lit "</arg_key>") (s.drop 9) with
      | none => none
      | some (key, afterK) =>
        let r := afterK.dropWhile isPyWs
        if isPre (lit "<arg_value>") r then
          match splitSub (lit "</arg_value>") (r.drop 11) with
          | none => none
          | some (v, afterV) =>
            let r2 := afterV.dropWhile isPyWs
            if isPre (lit "<arg_key>") r2 then
              match glmPairsF fuel r2 with
              | some (ps, rem) => some ((key, v) :: ps, rem)
              | none => none
            else if isPre (lit "</tool_call>") r2 then some ([(key, v)], r2.drop 12)
            else none
        else none
    else none

/-- Find where the pairs group of a GLM legacy match starts: the lazy name
group `(.*?)` grows until the remainder matches the pairs group, i.e. the
first `<arg_key>` occurrence from which `glmPairsF` succeeds.  Returns the
raw gap text (the name group before regex whitespace trimming), the pairs
and the rest after the match. -/
def glmFindPairsF : Nat → List Char →
    Option (List Char × List (List Char × List Char) × List Char)
  | 0, _ => none
  | fuel + 1, r =>
    match splitSubIncl (lit "<arg_key>") r with
    | none => none
    | some (pre, atKey) =>
      match glmPairsF atKey.length atKey with
      | some (ps, rem) => some (pre, ps, rem)
      | none =>
        match glmFindPairsF fuel (atKey.drop 9) with
        | some (nm, ps, rem) => some (pre ++ lit "<arg_key>" ++ nm, ps, rem)
        | none => none

/-- `re.findall` of the GLM legacy pattern
`<tool_call>\s*(.*?)\s*((?:<arg_key>.*?</arg_key>\s*<arg_value>.*?</arg_value>\s*)+)\s*</tool_call>`:
returns (raw name group, key/value pairs) per match, in document order. -/
def glmScanLegacyF : Nat → List Char → List (List Char × List (List Char × List Char))
  | 0, _ => []
  | fuel + 1, s =>
    match splitSub (lit "<tool_call>") s with
    | none => []
    | some (_, afterOpen) =>
      match glmFindPairsF afterOpen.length afterOpen with
      | some (nm, ps, rem) => (nm, ps) :: glmScanLegacyF fuel rem
      | none => glmScanLegacyF fuel afterOpen

/-- Fuel wrapper for `glmScanLegacyF`. -/
def glmScanLegacy (s : List Char) : List (List Char × List (List Char × List Char)) :=
  glmScanLegacyF s.length s

/-- The legacy part of `GLMToolCallConverter.parse_tool_calls`: each match
becomes one call with stripped name and stripped key/value pairs serialized
as the arguments object; `startLen` is `len(tool_calls)` before the legacy
loop runs (the number of `[TOOL_REQUEST]` calls). -/
def glmLegacyCalls (env : Env) (content : List Char) (startLen : Nat) : List ToolCall :=
  ((glmScanLegacy content).foldl
    (fun (acc : List ToolCall × Nat) m =>
      let nm := pyStrip m.1
      let args := m.2.foldl (fun d kv => objInsert d (pyStrip kv.1) (Json.strv (pyStrip kv.2))) []
      (acc.1 ++ [⟨hashId env (nm ++ '_' :: natToStr acc.2 ++ '_' :: natToStr (startLen + acc.2)),
                  lit "function", ⟨nm, jsonDump (Json.obj args)⟩⟩], acc.2 + 1))
    ([], 0)).1

/-- `GLMToolCallConverter.parse_tool_calls`: `[TOOL_REQUEST]` matches first,
then legacy `<tool_call>` matches, one shared `tool_calls` list. -/
def glmParse (env : Env) (content : List Char) : List ToolCall :=
  let req := glmRequestCalls env content
  req ++ glmLegacyCalls env content req.length

/-- `re.finditer(r"\[TOOL_CALLS\](.*?)\[ARGS\](.*?)(?=\[TOOL_CALLS\]|$)", content, re.DOTALL)`:
each match yields the raw name group and the raw arguments group (which
extends to the next `[TOOL_CALLS]` marker or to the end of input). -/
def devScanF : Nat → List Char → List (List Char × List Char)
  | 0, _ => []
  | fuel + 1, s =>
    match splitSub (lit "[TOOL_CALLS]") s with
    | none => []
    | some (_, afterM) =>
      match splitSub (lit "[ARGS]") afterM with
      | none => []
      | some (nm, afterA) =>
        match splitSubIncl (lit "[TOOL_CALLS]") afterA with
        | some (args, rest) => (nm, args) :: devScanF fuel rest
        | none => [(nm, afterA)]

/-- Fuel wrapper for `devScanF`. -/
def devScan (s : List Char) : List (List Char × List Char) := devScanF s.length s

/-- `DevstralToolCallConverter.parse_tool_calls`: every matched block yields
one call; if the stripped arguments text is valid JSON it is re-serialized,
otherwise the raw text itself is JSON-string-encoded (`args = json_part`
followed by `json.dumps(args)`).  No block is ever dropped. -/
def devstralParse (env : Env) (content : List Char) : List ToolCall :=
  (devScan content).enum.map (fun p =>
    let nm := pyStrip p.2.1
    let ar := pyStrip p.2.2
    let argStr := match jsonLoads ar with
      | some v => jsonDump v
      | none => jsonEncodeStr ar
    ⟨hashId env (nm ++ '_' :: natToStr p.1), lit "function", ⟨nm, argStr⟩⟩)

/-! ### Converter operation bundles

`ToolCallConverter`'s response/streaming logic (`base.py`) is generic over
the subclass's operations; `ConvOps` is that interface. -/

/-- The abstract-method surface of `ToolCallConverter` used by
`convert_response` and `StreamingToolCallHandler`. -/
structure ConvOps where
  hasPartial : List Char → Bool
  isComplete : List Char → Bool
  parse : List Char → List ToolCall
  clean : List Char → List Char

/-- The GLM converter's operations (flag and hash from `env`). -/
def glmOps (env : Env) : ConvOps :=
  ⟨glmHasPartial, glmIsComplete, glmParse env, glmClean env.removeThink⟩

/-- The Qwen3 converter's operations. -/
def qwen3Ops (env : Env) : ConvOps :=
  ⟨qwen3HasPartial, qwen3IsComplete, qwen3Parse env, qwen3Clean env.removeThink⟩

/-- `PassThroughConverter`: no detection, no parsing; `_clean_content` still
removes empty think tags. -/
def passthroughOps : ConvOps :=
  ⟨fun _ => false, fun _ => false, fun _ => [], removeEmptyThink⟩

/-! ## The converter registry (`factory.py`)

`ConverterFactory.__init__` registers, in order: Qwen3-Coder, Qwen3, GLM,
OpenAI, Claude, PassThrough.  No Devstral converter is registered.
`get_converter` returns `PassThroughConverter` directly for an empty model
name and otherwise the first registered converter whose
`can_handle_model` is true. -/

/-- The kinds of converter the factory can return. -/
inductive ConvKind where
  | qwen3coder : ConvKind
  | qwen3 : ConvKind
  | glm : ConvKind
  | openai : ConvKind
  | claude : ConvKind
  | passthrough : ConvKind
deriving DecidableEq

/-- Dispatch `can_handle_model` per kind; `PassThroughConverter` matches any
model. -/
def kindCanHandle : ConvKind → List Char → Bool
  | ConvKind.qwen3coder => qwen3CoderCanHandle
  | ConvKind.qwen3 => qwen3CanHandle
  | ConvKind.glm => glmCanHandle
  | ConvKind.openai => openaiCanHandle
  | ConvKind.claude => claudeCanHandle
  | ConvKind.passthrough => fun _ => true

/-- The registration order of `ConverterFactory.__init__`. -/
def registeredKinds : List ConvKind :=
  [ConvKind.qwen3coder, ConvKind.qwen3, ConvKind.glm,
   ConvKind.openai, ConvKind.claude, ConvKind.passthrough]

/-- `ConverterFactory.get_converter` over an arbitrary registration list:
empty model name short-circuits to PassThrough without consulting the list;
otherwise the first matching converter is returned, with PassThrough as the
final fallback. -/
def getConverterWith (ks : List ConvKind) (name : List Char) : ConvKind :=
  if name.isEmpty then ConvKind.passthrough
  else
    match ks.find? (fun k => kindCanHandle k name) with
    | some k => k
    | none => ConvKind.passthrough

/-- `ConverterFactory.get_converter` with the actual registration list. -/
def getConverter (name : List Char) : ConvKind :=
  getConverterWith registeredKinds name

/-! ## The non-streaming response transformer
(`ToolCallConverter.convert_response`, `base.py`)

Response documents are modelled structurally: the fields the code reads or
writes are explicit, and `extra` carries any other keys of the underlying
JSON object, which the code never touches (it mutates the parsed document in
place).  A message whose `content` key is present but holds JSON null is
outside the embedding: on such input the source raises `TypeError` inside
`has_partial_tool_call` (`None` is not a string). -/

/-- A response message (`choices[i].message`).  `none` fields are absent
keys. -/
structure Message where
  role : Option (List Char)
  content : Option (List Char)
  toolCalls : Option (List ToolCall)
  extra : List (List Char × List Char)
deriving DecidableEq

/-- A response choice. -/
structure Choice where
  message : Option Message
  finishReason : Option (List Char)
  extra : List (List Char × List Char)
deriving DecidableEq

/-- A response document.  `choices = none` models a body without a
`choices` key, which `convert_response` returns untouched. -/
structure ResponseDoc where
  model : Option (List Char)
  choices : Option (List Choice)
  extra : List (List Char × List Char)
deriving DecidableEq

/-- The per-choice body of `convert_response`'s loop. -/
def processChoice (ops : ConvOps) (ch : Choice) : Choice :=
  match ch.message with
  | none => ch
  | some m =>
    match m.content with
    | none => ch
    | some c =>
      if ops.hasPartial c then
        let tcs := ops.parse c
        if tcs.isEmpty then ch
        else
          let cc := removeEmptyThink (ops.clean c)
          { ch with
            message := some { m with
              toolCalls := some tcs,
              content := if (pyStrip cc).isEmpty then none else some cc },
            finishReason := some (lit "tool_calls") }
      else
        let c2 := removeEmptyThink c
        if c2 = c then ch
        else { ch with message := some { m with content := some c2 } }

/-- `ToolCallConverter.convert_response`. -/
def convertResponse (ops : ConvOps) (r : ResponseDoc) : ResponseDoc :=
  match r.choices with
  | none => r
  | some cs => { r with choices := some (cs.map (processChoice ops)) }

/-- `OpenAIToolCallConverter.convert_response` overrides the shared logic
and returns the document unchanged. -/
def openaiConvertResponse (r : ResponseDoc) : ResponseDoc := r

/-! ## The streaming state machine (`StreamingToolCallHandler`, `base.py`)

A streaming chunk is modelled with the fields `process_chunk` and
`_convert_to_tool_call_chunk` read or write.  `delta.content = none` covers
both an absent and a null content (both falsy in the source); in the
synthesized chunk, `content: none` corresponds to the explicit JSON null the
source writes when the cleaned content is empty. -/

/-- A tool call as placed in a streaming delta (with its `index`). -/
structure IndexedToolCall where
  index : Nat
  id : List Char
  type : List Char
  function : FnCall
deriving DecidableEq

/-- A streaming delta. -/
structure Delta where
  role : Option (List Char)
  content : Option (List Char)
  toolCalls : Option (List IndexedToolCall)
deriving DecidableEq

/-- A streaming chunk choice. -/
structure ChunkChoice where
  index : Option Nat
  delta : Option Delta
  finishReason : Option (List Char)
deriving DecidableEq

/-- A streaming chunk. -/
structure Chunk where
  id : Option (List Char)
  object : Option (List Char)
  created : Option Int
  model : Option (List Char)
  choices : List ChunkChoice
deriving DecidableEq

/-- The handler's mutable state (`buffer`, `tool_call_detected`,
`tool_call_complete`). -/
structure HState where
  buffer : List Char
  detected : Bool
  complete : Bool
deriving DecidableEq

/-- The state a fresh `StreamingToolCallHandler` starts in. -/
def initHState : HState := ⟨[], false, false⟩

/-- `StreamingToolCallHandler._convert_to_tool_call_chunk`: parse the
buffer; if nothing parses return the original chunk, else synthesize a
tool-call chunk from the cleaned buffer. -/
def mkToolCallChunk (ops : ConvOps) (env : Env) (buffer : List Char)
    (orig : Chunk) : Chunk :=
  let tcs := ops.parse buffer
  if tcs.isEmpty then orig
  else
    let cc := removeEmptyThink (ops.clean buffer)
    { id := some (orig.id.getD (lit "chunk")),
      object := some (lit "chat.completion.chunk"),
      created := some (orig.created.getD env.now),
      model := some (orig.model.getD []),
      choices := [{
        index := some 0,
        delta := some {
          role := some (lit "assistant"),
          content := if cc.isEmpty then none else some cc,
          toolCalls := some (tcs.enum.map (fun p => ⟨p.1, p.2.id, p.2.type, p.2.function⟩)) },
        finishReason := some (lit "tool_calls") }] }

/-- `StreamingToolCallHandler.process_chunk`: returns the new state and the
chunk to forward (`none` means the chunk is swallowed). -/
def processChunk (ops : ConvOps) (env : Env) (st : HState) (ch : Chunk) :
    HState × Option Chunk :=
  match ch.choices with
  | [] => (st, some ch)
  | choice :: _ =>
    let delta := choice.delta.getD ⟨none, none, none⟩
    let tail := fun (st1 : HState) =>
      if !st1.detected then (st1, some ch)
      else if st1.complete then (st1, none)
      else (st1, some ch)
    match delta.content with
    | some c =>
      if c.isEmpty then tail st
      else
        let buf := st.buffer ++ c
        if ops.hasPartial buf then
          if ops.isComplete buf then
            ({ buffer := buf, detected := true, complete := true },
             some (mkToolCallChunk ops env buf ch))
          else ({ buffer := buf, detected := true, complete := st.complete }, none)
        else if st.detected && !st.complete then
          ({ st with buffer := buf }, none)
        else tail { st with buffer := buf }
    | none => tail st

/-- The manufactured terminal frame of `StreamingToolCallHandler.finalize`:
`{"choices": [{"index": 0, "delta": {}, "finish_reason": "stop"}]}`. -/
def stopChunk : Chunk :=
  ⟨none, none, none, none, [⟨some 0, some ⟨none, none, none⟩, some (lit "stop")⟩]⟩

/-- `StreamingToolCallHandler.finalize`: a stop frame only when a detected
tool call never completed, otherwise nothing. -/
def finalize (st : HState) : Option Chunk :=
  if st.detected && !st.complete then some stopChunk else none

/-- Run the handler over a list of parsed data chunks, collecting the
forwarded chunks and the final state (the per-`data:`-line loop of
`_handle_streaming_response`, `app.py`). -/
def runStream (ops : ConvOps) (env : Env) (st : HState) :
    List Chunk → List Chunk × HState
  | [] => ([], st)
  | c :: rest =>
    let out := processChunk ops env st c
    let next := runStream ops env out.1 rest
    (out.2.toList ++ next.1, next.2)

/-- One frame as seen by the client: a data chunk or the `[DONE]`
sentinel. -/
inductive Frame where
  | chunk : Chunk → Frame
  | done : Frame
deriving DecidableEq

/-- The frame sequence the client receives for a streamed response whose
data lines parse to `chunks` followed by `[DONE]` (`app.py`): each forwarded
chunk, then the finalizer's frame if any, then `[DONE]`. -/
def clientFrames (ops : ConvOps) (env : Env) (chunks : List Chunk) : List Frame :=
  let r := runStream ops env initHState chunks
  r.1.map Frame.chunk ++ (finalize r.2).toList.map Frame.chunk ++ [Frame.done]

/-! ## Concrete inputs used by the claims -/

/-- Scenario-A first frame: a prose delta on a GLM model. -/
def chunkProse : Chunk :=
  ⟨some (lit "chatcmpl-1"), some (lit "chat.completion.chunk"), some 111,
   some (lit "glm-4.5-air"),
   [⟨some 0, some ⟨some (lit "assistant"), some (lit "Searching.\n"), none⟩, none⟩]⟩

/-- Scenario-A second frame: a complete GLM legacy tool-call block in one
delta. -/
def chunkToolCall : Chunk :=
  ⟨some (lit "chatcmpl-1"), some (lit "chat.completion.chunk"), some 111,
   some (lit "glm-4.5-air"),
   [⟨some 0, some ⟨none,
     some (lit "<tool_call>fetch_x\n<arg_key>q</arg_key>\n<arg_value>v</arg_value>\n</tool_call>"),
     none⟩, none⟩]⟩

/-- The frame the state machine synthesizes for scenario A (hash function
`env0.pyHash`). -/
def chunkSynth : Chunk :=
  ⟨some (lit "chatcmpl-1"), some (lit "chat.completion.chunk"), some 111,
   some (lit "glm-4.5-air"),
   [⟨some 0,
     some ⟨some (lit "assistant"), some (lit "Searching."),
       some [⟨0, lit "0", lit "function", ⟨lit "fetch_x", lit "\x7b\"q\": \"v\"\x7d"⟩⟩]⟩,
     some (lit "tool_calls")⟩]⟩

/-- Scenario-C frame: truncated tool-call markup, never completed. -/
def chunkTruncated : Chunk :=
  ⟨some (lit "chatcmpl-2"), some (lit "chat.completion.chunk"), some 222,
   some (lit "glm-4.5-air"),
   [⟨some 0, some ⟨some (lit "assistant"), some (lit "<tool_call>fetch_x"), none⟩, none⟩]⟩

/-- A message that already carries a `tool_calls` field while its content
has no markers. -/
def msgPre : Message :=
  ⟨some (lit "assistant"), some (lit "hi"),
   some [⟨lit "7", lit "function", ⟨lit "f", lit "\x7b\x7d"⟩⟩], []⟩

/-- A response document whose only message is `msgPre`. -/
def docPre : ResponseDoc :=
  ⟨some (lit "glm-4.5-air"), some [⟨some msgPre, some (lit "stop"), []⟩], []⟩

/-- A response document with no converter markers but an empty think span in
its content. -/
def docThink : ResponseDoc :=
  ⟨some (lit "glm-4.5-air"),
   some [⟨some ⟨some (lit "assistant"), some (lit "hi <think></think>"), none, []⟩,
     some (lit "stop"), []⟩], []⟩

/-- The finish_reason values carried by a frame's choices (empty for the
`[DONE]` sentinel). -/
def frameFinishReasons : Frame → List (Option (List Char))
  | Frame.chunk c => c.choices.map ChunkChoice.finishReason
  | Frame.done => []

/-! ## Helper lemmas -/

theorem containsSub_nil_pat (s : List Char) : containsSub [] s = true := by
  cases s with
  | nil => rfl
  | cons c rest => simp [containsSub, isPre, List.isPrefixOf]

theorem splitSub_eq_none_of_not_contains {pat s : List Char}
    (h : containsSub pat s = false) : splitSub pat s = none := by
  induction s with
  | nil =>
    have hne : pat.isEmpty = false := by
      cases pat with
      | nil => simp [containsSub] at h
      | cons a l => rfl
    simp [splitSub, hne]
  | cons c rest ih =>
    have h2 : isPre pat (c :: rest) = false ∧ containsSub pat rest = false := by
      have := h
      simp [containsSub, Bool.or_eq_false_iff] at this
      exact ⟨this.1, this.2⟩
    simp [splitSub, h2.1, ih h2.2]

theorem splitSub_parts {pat s b a : List Char}
    (h : splitSub pat s = some (b, a)) : s = b ++ pat ++ a := by
  induction s generalizing b a with
  | nil =>
    by_cases hp : pat.isEmpty = true
    · have hpat : pat = [] := List.isEmpty_iff.mp hp
      subst hpat
      simp [splitSub] at h
      simp [h.1, h.2]
    · simp [splitSub, hp] at h
  | cons c rest ih =>
    by_cases hp : isPre pat (c :: rest) = true
    · have hpre : pat <+: c :: rest := List.isPrefixOf_iff_prefix.mp hp
      have heq : pat ++ List.drop pat.length (c :: rest) = c :: rest :=
        List.prefix_iff_eq_append.mp hpre
      simp [splitSub, hp] at h
      obtain ⟨hb, ha⟩ := h
      subst hb
      subst ha
      simpa using heq.symm
    · simp [splitSub, hp] at h
      match h1 : splitSub pat rest with
      | none => rw [h1] at h; simp at h
      | some (b2, a2) =>
        rw [h1] at h
        simp at h
        obtain ⟨hb, ha⟩ := h
        subst hb
        subst ha
        simp [ih h1]

theorem splitSub_len {pat s b a : List Char} (h : splitSub pat s = some (b, a)) :
    s.length = b.length + pat.length + a.length := by
  have := splitSub_parts h
  subst this
  simp [List.length_append]
  omega

theorem splitSubIncl_parts {pat s b a : List Char}
    (h : splitSubIncl pat s = some (b, a)) : s = b ++ a ∧ isPre pat a = true := by
  induction s generalizing b a with
  | nil =>
    by_cases hp : pat.isEmpty = true
    · have hpat : pat = [] := List.isEmpty_iff.mp hp
      subst hpat
      simp [splitSubIncl] at h
      obtain ⟨hb, ha⟩ := h
      subst hb
      subst ha
      exact ⟨rfl, by simp [isPre, List.isPrefixOf]⟩
    · simp [splitSubIncl, hp] at h
  | cons c rest ih =>
    by_cases hp : isPre pat (c :: rest) = true
    · simp [splitSubIncl, hp] at h
      obtain ⟨hb, ha⟩ := h
      subst hb
      subst ha
      exact ⟨rfl, hp⟩
    · simp [splitSubIncl, hp] at h
      match h1 : splitSubIncl pat rest with
      | none => rw [h1] at h; simp at h
      | some (b2, a2) =>
        rw [h1] at h
        simp at h
        obtain ⟨hb, ha⟩ := h
        subst hb
        subst ha
        exact ⟨by simp [(ih h1).1], (ih h1).2⟩

theorem subDelimF_id_of_not_contains {opTag clTag s : List Char} (fuel : Nat)
    (h : containsSub opTag s = false) : subDelimF opTag clTag fuel s = s := by
  cases fuel with
  | zero => rfl
  | succ n =>
    by_cases hg : (opTag.isEmpty || clTag.isEmpty) = true
    · simp [subDelimF, hg]
    · simp [subDelimF, hg, splitSub_eq_none_of_not_contains h]

theorem subDelim_id_of_not_contains {opTag clTag s : List Char}
    (h : containsSub opTag s = false) : subDelim opTag clTag s = s :=
  subDelimF_id_of_not_contains s.length h

theorem removeAllF_id_of_not_contains {pat s : List Char} (fuel : Nat)
    (h : containsSub pat s = false) : removeAllF pat fuel s = s := by
  cases fuel with
  | zero => rfl
  | succ n =>
    by_cases hg : pat.isEmpty = true
    · simp [removeAllF, hg]
    · simp [removeAllF, hg, splitSub_eq_none_of_not_contains h]

theorem removeAll_id_of_not_contains {pat s : List Char}
    (h : containsSub pat s = false) : removeAll pat s = s :=
  removeAllF_id_of_not_contains s.length h

theorem removeOrphanedThinkF_id_of_not_contains {s : List Char} (fuel : Nat)
    (h : containsSub (lit "<think>") s = false) :
    removeOrphanedThinkF fuel s = s := by
  induction fuel generalizing s with
  | zero => cases s <;> simp [removeOrphanedThinkF]
  | succ n ih =>
    cases s with
    | nil => rfl
    | cons c rest =>
      have h2 : isPre (lit "<think>") (c :: rest) = false ∧
          containsSub (lit "<think>") rest = false := by
        have := h
        simp [containsSub, Bool.or_eq_false_iff] at this
        exact ⟨this.1, this.2⟩
      simp [removeOrphanedThinkF, h2.1, ih h2.2]

theorem removeOrphanedThink_id_of_not_contains {s : List Char}
    (h : containsSub (lit "<think>") s = false) : removeOrphanedThink s = s :=
  removeOrphanedThinkF_id_of_not_contains s.length h

theorem dropWhile_head_false (p : Char → Bool) (l : List Char) :
    l.dropWhile p = [] ∨ ∃ c t, l.dropWhile p = c :: t ∧ p c = false := by
  induction l with
  | nil => exact Or.inl rfl
  | cons c rest ih =>
    by_cases hc : p c = true
    · simpa [List.dropWhile_cons, hc] using ih
    · exact Or.inr ⟨c, rest, by simp [List.dropWhile_cons, hc], by simpa using hc⟩

theorem trimL_trimL (s : List Char) : trimL (trimL s) = trimL s :=
  List.dropWhile_idempotent isPyWs s

theorem trimR_trimR (s : List Char) : trimR (trimR s) = trimR s := by
  unfold trimR
  rw [List.reverse_reverse, trimL_trimL]

theorem trimL_trimR_of_trimL {u : List Char} (h : trimL u = u) :
    trimL (trimR u) = trimR u := by
  have hpre : trimR u <+: u := by
    have hsuf : trimL u.reverse <:+ u.reverse := List.dropWhile_suffix isPyWs
    have h5 : (trimR u).reverse <:+ u.reverse := by simpa [trimR] using hsuf
    exact List.reverse_suffix.mp h5
  match h2 : trimR u with
  | [] => rfl
  | c :: t =>
    rcases hpre with ⟨tail2, htail⟩
    rw [h2] at htail
    have hcfalse : isPyWs c = false := by
      have h' : List.dropWhile isPyWs u = u := h
      rcases dropWhile_head_false isPyWs u with h3 | ⟨c2, t2, h3, h4⟩
      · rw [h'] at h3
        subst h3
        simp at htail
      · rw [h'] at h3
        rw [← htail] at h3
        simp at h3
        rw [← h3.1] at h4
        exact h4
    simp [trimL, List.dropWhile_cons, hcfalse]

theorem pyStrip_idem (s : List Char) : pyStrip (pyStrip s) = pyStrip s := by
  unfold pyStrip
  rw [trimL_trimR_of_trimL (trimL_trimL s), trimR_trimR]

theorem emptyThinkAt_length {s a : List Char} (h : emptyThinkAt s = some a) :
    a.length < s.length := by
  by_cases h1 : isPre (lit "<think>") s = true
  · simp [emptyThinkAt, h1] at h
    by_cases h2 : isPre (lit "</think>") ((s.drop 7).dropWhile isPyWs) = true
    · simp [h2] at h
      have hs7 : 7 ≤ s.length := by
        have := (List.isPrefixOf_iff_prefix.mp h1).length_le
        simpa [lit] using this
      have hd : ((s.drop 7).dropWhile isPyWs).length ≤ s.length - 7 := by
        calc ((s.drop 7).dropWhile isPyWs).length
            ≤ (s.drop 7).length := (List.dropWhile_suffix isPyWs).length_le
          _ = s.length - 7 := by simp [List.length_drop]
      have : a.length ≤ s.length - 7 := by
        rw [← h]
        calc (((s.drop 7).dropWhile isPyWs).drop 8).length
            ≤ ((s.drop 7).dropWhile isPyWs).length := by
              rw [List.length_drop]
              omega
          _ ≤ s.length - 7 := hd
      omega
    · simp [h2] at h
  · simp [emptyThinkAt, h1] at h

theorem findEmptyThink_length {s b a : List Char}
    (h : findEmptyThink s = some (b, a)) : b.length + a.length < s.length := by
  induction s generalizing b a with
  | nil => simp [findEmptyThink] at h
  | cons c rest ih =>
    by_cases h1 : (emptyThinkAt (c :: rest)).isSome = true
    · obtain ⟨a2, ha2⟩ := Option.isSome_iff_exists.mp h1
      rw [findEmptyThink, ha2] at h
      simp at h
      obtain ⟨hb, ha⟩ := h
      subst hb
      subst ha
      simpa using emptyThinkAt_length ha2
    · have hnone : emptyThinkAt (c :: rest) = none :=
        Option.not_isSome_iff_eq_none.mp (by simpa using h1)
      rw [findEmptyThink, hnone] at h
      match h2 : findEmptyThink rest with
      | none => rw [h2] at h; simp at h
      | some (b2, a2) =>
        rw [h2] at h
        simp at h
        obtain ⟨hb, ha⟩ := h
        subst hb
        subst ha
        have := ih h2
        simp
        omega

theorem removeEmptyThinkF_length_le (fuel : Nat) (s : List Char) :
    (removeEmptyThinkF fuel s).length ≤ s.length := by
  induction fuel generalizing s with
  | zero => simp [removeEmptyThinkF]
  | succ n ih =>
    match h : findEmptyThink s with
    | none => simp [removeEmptyThinkF, h]
    | some (b, a) =>
      have h1 := findEmptyThink_length h
      have h2 := ih a
      simp [removeEmptyThinkF, h]
      omega

theorem removeEmptyThinkF_id_of_none {s : List Char} (fuel : Nat)
    (h : findEmptyThink s = none) : removeEmptyThinkF fuel s = s := by
  cases fuel with
  | zero => rfl
  | succ n => simp [removeEmptyThinkF, h]

theorem removeEmptyThink_id_of_no_span {s : List Char}
    (h : hasEmptyThink s = false) : removeEmptyThink s = s := by
  have hn : findEmptyThink s = none := by
    simpa [hasEmptyThink, Option.isSome_iff_exists, Option.eq_none_iff_forall_not_mem] using h
  exact removeEmptyThinkF_id_of_none s.length hn

theorem scanWrappedJsonF_nil_of_not_contains {opTag clTag s : List Char} (fuel : Nat)
    (h : containsSub opTag s = false) : scanWrappedJsonF opTag clTag fuel s = [] := by
  cases fuel with
  | zero => rfl
  | succ n => simp [scanWrappedJsonF, splitSub_eq_none_of_not_contains h]

theorem glmScanLegacyF_nil_of_not_contains {s : List Char} (fuel : Nat)
    (h : containsSub (lit "<tool_call>") s = false) : glmScanLegacyF fuel s = [] := by
  cases fuel with
  | zero => rfl
  | succ n => simp [glmScanLegacyF, splitSub_eq_none_of_not_contains h]

theorem glmParse_nil_of_no_partial {env : Env} {c : List Char}
    (h : glmHasPartial c = false) : glmParse env c = [] := by
  have hsplit : containsSub (lit "<tool_call>") c = false ∧
      containsSub (lit "[TOOL_REQUEST]") c = false := by
    have := h
    simp [glmHasPartial, Bool.or_eq_false_iff] at this
    tauto
  have h1 : glmRequestCalls env c = [] := by
    simp [glmRequestCalls, scanWrappedJson,
      scanWrappedJsonF_nil_of_not_contains c.length hsplit.2]
  have h2 : glmLegacyCalls env c 0 = [] := by
    simp [glmLegacyCalls, glmScanLegacy,
      glmScanLegacyF_nil_of_not_contains c.length hsplit.1]
  simp [glmParse, h1, h2]

theorem list_map_id_of {α : Type} {l : List α} {f : α → α}
    (h : ∀ x ∈ l, f x = x) : l.map f = l := by
  induction l with
  | nil => rfl
  | cons a rest ih =>
    simp [List.map_cons, h a (by simp), ih (fun x hx => h x (by simp [hx]))]

theorem processChoice_id_of_clean {ops : ConvOps} {ch : Choice}
    (h : ∀ m, ch.message = some m → ∀ c, m.content = some c →
      ops.hasPartial c = false ∧ removeEmptyThink c = c) :
    processChoice ops ch = ch := by
  match h1 : ch.message with
  | none => simp [processChoice, h1]
  | some m =>
    match h2 : m.content with
    | none => simp [processChoice, h1, h2]
    | some c =>
      obtain ⟨hp, hc⟩ := h m h1 c h2
      simp [processChoice, h1, h2, hp, hc]

theorem processChoice_of_parse_pos (ops : ConvOps) {ch : Choice} {m : Message}
    {c : List Char} (hm : ch.message = some m) (hc : m.content = some c)
    (hp : ops.hasPartial c = true) (hne : ops.parse c ≠ []) :
    processChoice ops ch =
      { ch with
        message := some ⟨m.role,
          (if (pyStrip (removeEmptyThink (ops.clean c))).isEmpty
           then none else some (removeEmptyThink (ops.clean c))),
          some (ops.parse c), m.extra⟩,
        finishReason := some (lit "tool_calls") } := by
  have hne2 : (ops.parse c).isEmpty = false := by simpa [List.isEmpty_iff] using hne
  simp [processChoice, hm, hc, hp, hne2]

theorem processChoice_of_parse_nil (ops : ConvOps) {ch : Choice} {m : Message}
    {c : List Char} (hm : ch.message = some m) (hc : m.content = some c)
    (hp : ops.hasPartial c = true) (hnil : ops.parse c = []) :
    processChoice ops ch = ch := by
  simp [processChoice, hm, hc, hp, hnil]

theorem processChoice_of_no_partial (ops : ConvOps) {ch : Choice} {m : Message}
    {c : List Char} (hm : ch.message = some m) (hc : m.content = some c)
    (hp : ops.hasPartial c = false) :
    processChoice ops ch =
      (if removeEmptyThink c = c then ch
       else { ch with message := some { m with content := some (removeEmptyThink c) } }) := by
  by_cases hct : removeEmptyThink c = c
  · simp [processChoice, hm, hc, hp, hct]
  · simp [processChoice, hm, hc, hp, hct]

theorem processChunk_passthrough_of_not_detected (env : Env) (st : HState)
    (ch : Chunk) (h : st.detected = false) :
    (processChunk passthroughOps env st ch).2 = some ch ∧
    (processChunk passthroughOps env st ch).1.detected = false ∧
    (processChunk passthroughOps env st ch).1.complete = st.complete := by
  unfold processChunk
  match h1 : ch.choices with
  | [] => simp [h]
  | choice :: rest =>
    match h2 : (choice.delta.getD ⟨none, none, none⟩).content with
    | none => simp [h2, h]
    | some c =>
      by_cases he : c.isEmpty = true
      · simp [h2, he, h]
      · simp [h2, he, h, passthroughOps]

theorem runStream_passthrough (env : Env) :
    ∀ (chunks : List Chunk) (st : HState), st.detected = false →
      (runStream passthroughOps env st chunks).1 = chunks ∧
      (runStream passthroughOps env st chunks).2.detected = false := by
  intro chunks
  induction chunks with
  | nil => intro st h; exact ⟨rfl, h⟩
  | cons c rest ih =>
    intro st h
    obtain ⟨hout, hdet, _⟩ := processChunk_passthrough_of_not_detected env st c h
    have h2 := ih (processChunk passthroughOps env st c).1 hdet
    simp [runStream, hout, h2.1, h2.2]

theorem removeEmptyThink_ne_of_span {s : List Char}
    (h : hasEmptyThink s = true) : removeEmptyThink s ≠ s := by
  obtain ⟨⟨b, a⟩, hf⟩ := Option.isSome_iff_exists.mp (by simpa [hasEmptyThink] using h)
  have hlt := findEmptyThink_length hf
  have hpos : 0 < s.length := by omega
  obtain ⟨n, hn⟩ : ∃ n, s.length = n + 1 := ⟨s.length - 1, by omega⟩
  intro hcontra
  have hlen : (removeEmptyThink s).length = s.length := by rw [hcontra]
  have : (removeEmptyThink s).length < s.length := by
    unfold removeEmptyThink
    rw [hn]
    simp [removeEmptyThinkF, hf]
    have := removeEmptyThinkF_length_le n a
    omega
  omega


/-! ## The claims -/

/-- C7, counterexample: the sanitizer's single `re.sub` pass does not rescan
text spliced together by a removal, so an input with nested markers leaves
an empty-think span in the output: on `<think><think></think> </think>` the
output is `<think> </think>`, which is itself an empty span. -/
theorem c7_counterexample :
    removeEmptyThink (lit "<think><think></think> </think>") = lit "<think> </think>" ∧
    hasEmptyThink (removeEmptyThink (lit "<think><think></think> </think>")) = true := by
  constructor
  · decide
  · decide

/-- C7, amended: a string is a fixed point of the sanitizer exactly when it
contains no empty or whitespace-only `<think></think>` span; in particular a
sanitizer output contains no such span whenever the pass found nothing to
remove, but a single pass over an input with nested markers can leave a
spliced empty span (see the counterexample). -/
theorem c7_amended (s : List Char) :
    (removeEmptyThink s = s → hasEmptyThink s = false) ∧
    (hasEmptyThink s = false → removeEmptyThink s = s) := by
  constructor
  · intro hfix
    by_cases hsp : hasEmptyThink s = true
    · exact absurd hfix (removeEmptyThink_ne_of_span hsp)
    · simpa using hsp
  · exact removeEmptyThink_id_of_no_span

/-- C7, witness for the amended theorem at a concrete input. -/
theorem c7_witness :
    hasEmptyThink (lit "plain text") = false ∧
    removeEmptyThink (lit "plain text") = lit "plain text" :=
  ⟨by decide, (c7_amended (lit "plain text")).2 (by decide)⟩

/-- C6, counterexample: `cleanContent` of the GLM converter is not
idempotent.  Removing `<tool_call>x</tool_call>` from
`<tool<tool_call>x</tool_call>_call>y</tool_call>` splices together a new
`<tool_call>y</tool_call>` block, which only a second pass removes. -/
theorem c6_counterexample :
    glmClean true (glmClean true (lit "<tool<tool_call>x</tool_call>_call>y</tool_call>")) ≠
      glmClean true (lit "<tool<tool_call>x</tool_call>_call>y</tool_call>") := by
  decide

/-- C6, amended: `cleanContent` output is a fixed point whenever it contains
no residual marker or think-tag text (for the GLM converter: none of
`<tool_call>`, `[TOOL_REQUEST]`, `<think>`, `</think>`; for the Qwen3
converter: none of `<tool_call>`, `<think>`); full idempotence fails when a
removal splices new marker text together (see the counterexample). -/
theorem c6_amended :
    (∀ (flag : Bool) (x : List Char),
      containsSub (lit "<tool_call>") (glmClean flag x) = false →
      containsSub (lit "[TOOL_REQUEST]") (glmClean flag x) = false →
      containsSub (lit "<think>") (glmClean flag x) = false →
      containsSub (lit "</think>") (glmClean flag x) = false →
      glmClean flag (glmClean flag x) = glmClean flag x) ∧
    (∀ (flag : Bool) (x : List Char),
      containsSub (lit "<tool_call>") (qwen3Clean flag x) = false →
      containsSub (lit "<think>") (qwen3Clean flag x) = false →
      qwen3Clean flag (qwen3Clean flag x) = qwen3Clean flag x) := by
  constructor
  · intro flag x h1 h2 h3 h4
    have hstrip : pyStrip (glmClean flag x) = glmClean flag x := by
      simp only [glmClean]
      exact pyStrip_idem _
    generalize hy : glmClean flag x = y at h1 h2 h3 h4 hstrip ⊢
    cases flag with
    | true =>
      show pyStrip (removeOrphanedThink (removeAll (lit "</think>")
        (subDelim (lit "<think>") (lit "</think>")
          (subDelim (lit "[TOOL_REQUEST]") (lit "[END_TOOL_REQUEST]")
            (subDelim (lit "<tool_call>") (lit "</tool_call>") y))))) = y
      rw [subDelim_id_of_not_contains h1, subDelim_id_of_not_contains h2,
        subDelim_id_of_not_contains h3, removeAll_id_of_not_contains h4,
        removeOrphanedThink_id_of_not_contains h3, hstrip]
    | false =>
      show pyStrip (removeOrphanedThink (removeAll (lit "</think>")
        (subDelim (lit "[TOOL_REQUEST]") (lit "[END_TOOL_REQUEST]")
          (subDelim (lit "<tool_call>") (lit "</tool_call>") y)))) = y
      rw [subDelim_id_of_not_contains h1, subDelim_id_of_not_contains h2,
        removeAll_id_of_not_contains h4,
        removeOrphanedThink_id_of_not_contains h3, hstrip]
  · intro flag x h1 h3
    have hstrip : pyStrip (qwen3Clean flag x) = qwen3Clean flag x := by
      simp only [qwen3Clean]
      exact pyStrip_idem _
    generalize hy : qwen3Clean flag x = y at h1 h3 hstrip ⊢
    cases flag with
    | true =>
      show pyStrip (removeOrphanedThink (subDelim (lit "<think>") (lit "</think>")
        (subDelim (lit "<tool_call>") (lit "</tool_call>") y))) = y
      rw [subDelim_id_of_not_contains h1, subDelim_id_of_not_contains h3,
        removeOrphanedThink_id_of_not_contains h3, hstrip]
    | false =>
      show pyStrip (removeOrphanedThink
        (subDelim (lit "<tool_call>") (lit "</tool_call>") y)) = y
      rw [subDelim_id_of_not_contains h1,
        removeOrphanedThink_id_of_not_contains h3, hstrip]

/-- C6, witness for the amended theorem at a concrete input. -/
theorem c6_witness :
    glmClean true (glmClean true (lit "a<tool_call>b</tool_call>c")) =
      glmClean true (lit "a<tool_call>b</tool_call>c") ∧
    qwen3Clean true (qwen3Clean true (lit "a<tool_call>b</tool_call>c")) =
      qwen3Clean true (lit "a<tool_call>b</tool_call>c") :=
  ⟨c6_amended.1 true _ (by decide) (by decide) (by decide) (by decide),
   c6_amended.2 true _ (by decide) (by decide)⟩

/-- C1, counterexample: the claim fails for the Qwen3 converter.  The
content `<tool_call>{bad}</tool_call>` holds one well-formed marker block
(complete by `is_complete_tool_call`) whose payload `{bad}` is invalid JSON,
yet `parse_tool_calls` returns no ToolCall at all: the block is dropped
(`qwen3.py`: "Invalid JSON – skip this block"). -/
theorem c1_counterexample :
    qwen3IsComplete (lit "<tool_call>\x7bbad\x7d</tool_call>") = true ∧
    (jsonLoads (lit "\x7bbad\x7d")).isNone = true ∧
    qwen3Parse env0 (lit "<tool_call>\x7bbad\x7d</tool_call>") = [] :=
  ⟨by decide, by decide, by decide⟩

/-- C1, amended: only the Devstral converter degrades gracefully on a
malformed argument payload.  Devstral's parse never drops a matched block
(one ToolCall per block), and a block whose stripped payload is not valid
JSON yields a ToolCall whose `arguments` is the JSON-string-encoding of that
raw payload text; in particular `[TOOL_CALLS]name[ARGS]not-json` yields
exactly one ToolCall with arguments `"not-json"` (JSON-encoded).  Parsing is
a total function (never an exception).  The Qwen3 and GLM JSON-wrapped
formats instead skip blocks with invalid payloads (see the
counterexample). -/
theorem c1_amended :
    (∀ (env : Env) (content : List Char),
      (devstralParse env content).length = (devScan content).length) ∧
    (∀ (env : Env) (content : List Char) (i : Nat) (nm ar : List Char),
      (devScan content).get? i = some (nm, ar) →
      (jsonLoads (pyStrip ar)).isNone = true →
      (devstralParse env content).get? i =
        some ⟨hashId env (pyStrip nm ++ '_' :: natToStr i), lit "function",
              ⟨pyStrip nm, jsonEncodeStr (pyStrip ar)⟩⟩) ∧
    devstralParse env0 (lit "[TOOL_CALLS]name[ARGS]not-json") =
      [⟨lit "0", lit "function", ⟨lit "name", lit "\"not-json\""⟩⟩] := by
  refine ⟨?_, ?_, by decide⟩
  · intro env content
    simp [devstralParse]
  · intro env content i nm ar hget hnone
    have hval : jsonLoads (pyStrip ar) = none := Option.isNone_iff_eq_none.mp hnone
    simp [devstralParse, List.get?_map, List.get?_enum, hget]
    exact ⟨nm, ar, by simpa [List.get?_eq_getElem?] using hget, rfl, rfl, by simp [hval]⟩

/-- C1, witness for the amended theorem at a concrete input. -/
theorem c1_witness :
    (devScan (lit "[TOOL_CALLS]f[ARGS]oops")).get? 0 = some (lit "f", lit "oops") ∧
    (devstralParse env0 (lit "[TOOL_CALLS]f[ARGS]oops")).get? 0 =
      some ⟨lit "0", lit "function", ⟨lit "f", lit "\"oops\""⟩⟩ :=
  ⟨by decide, by
    have h := c1_amended.2.1 env0 (lit "[TOOL_CALLS]f[ARGS]oops") 0
      (lit "f") (lit "oops") (by decide) (by decide)
    simpa using h⟩

/-- C8, code bug: with `REMOVE_THINK_TAGS` disabled the GLM converter does
not preserve a matched `<think>…</think>` span.  Its "orphaned closing tag"
step removes every `</think>` (not only orphaned ones, contradicting the
code's own comment), after which the matching `<think>` has no closer and is
removed as orphaned — despite the debug message "Keeping complete
<think>...</think> pairs".  The Qwen3 converter, which has no such step,
preserves the span verbatim as the claim demands. -/
theorem c8_code_bug :
    glmClean false (lit "<think>Some reasoning</think> answer") =
      lit "Some reasoning answer" ∧
    qwen3Clean false (lit "<think>Some reasoning</think> answer") =
      lit "<think>Some reasoning</think> answer" :=
  ⟨by decide, by decide⟩

/-- C4, counterexample: the claimed "if and only if" fails for a message
that already carries a `tool_calls` field.  `convert_response` leaves
`docPre` unchanged — its message keeps `tool_calls` — although the GLM
parser finds no tool call in the content `hi`. -/
theorem c4_counterexample :
    convertResponse (glmOps env0) docPre = docPre ∧
    msgPre.toolCalls ≠ none ∧
    glmParse env0 (lit "hi") = [] :=
  ⟨by decide, by decide, by decide⟩

set_option maxHeartbeats 1000000 in
/-- C4, amended: for every choice whose message carries a content string and
no pre-existing `tool_calls` field, the processed message has `tool_calls`
set iff the GLM parse of the content is non-empty; in that case
`finish_reason` becomes `tool_calls` and the content is the cleaned
remainder, the field being dropped when the remainder strips to empty.  A
message that already carries `tool_calls` keeps it even when parse finds
nothing (see the counterexample). -/
theorem c4_amended (env : Env) (r : ResponseDoc) (cs : List Choice)
    (ch : Choice) (m : Message) (c : List Char)
    (hcs : r.choices = some cs) (hm : ch.message = some m)
    (hc : m.content = some c) (htc : m.toolCalls = none) :
    convertResponse (glmOps env) r =
      { r with choices := some (cs.map (processChoice (glmOps env))) } ∧
    ∃ m2, (processChoice (glmOps env) ch).message = some m2 ∧
      (m2.toolCalls ≠ none ↔ glmParse env c ≠ []) ∧
      (glmParse env c ≠ [] →
        m2.toolCalls = some (glmParse env c) ∧
        (processChoice (glmOps env) ch).finishReason = some (lit "tool_calls") ∧
        m2.content =
          (if (pyStrip (removeEmptyThink (glmClean env.removeThink c))).isEmpty
           then none
           else some (removeEmptyThink (glmClean env.removeThink c)))) := by
  constructor
  · simp [convertResponse, hcs]
  · by_cases hp : glmHasPartial c = true
    · by_cases hnil : glmParse env c = []
      · have hkey := processChoice_of_parse_nil (glmOps env) hm hc hp hnil
        refine ⟨m, ?_, ?_, ?_⟩
        · rw [hkey, hm]
        · simp [htc, hnil]
        · intro hcontra
          exact absurd hnil hcontra
      · have hkey := processChoice_of_parse_pos (glmOps env) hm hc hp hnil
        refine ⟨(⟨m.role,
          (if (pyStrip (removeEmptyThink (glmClean env.removeThink c))).isEmpty
            then none else some (removeEmptyThink (glmClean env.removeThink c))),
          some (glmParse env c), m.extra⟩ : Message),
          ?_, ?_, ?_⟩
        · rw [hkey]
          rfl
        · simp [hnil]
        · intro h9
          refine ⟨rfl, ?_, rfl⟩
          rw [hkey]
    · have hp2 : glmHasPartial c = false := by simpa using hp
      have hnil : glmParse env c = [] := glmParse_nil_of_no_partial hp2
      have hkey := processChoice_of_no_partial (glmOps env) hm hc hp2
      by_cases hct : removeEmptyThink c = c
      · refine ⟨m, ?_, ?_, ?_⟩
        · rw [hkey, if_pos hct, hm]
        · simp [htc, hnil]
        · intro hcontra
          exact absurd hnil hcontra
      · refine ⟨{ m with content := some (removeEmptyThink c) }, ?_, ?_, ?_⟩
        · rw [hkey, if_neg hct]
        · simp [htc, hnil]
        · intro hcontra
          exact absurd hnil hcontra

/-- C4, witness for the amended theorem at a concrete response document
(the non-streaming GLM scenario of the spec). -/
theorem c4_witness :
    ∃ m2, (processChoice (glmOps env0)
        ⟨some ⟨some (lit "assistant"),
          some (lit "I'll check.\n<tool_call>f\n<arg_key>k</arg_key>\n<arg_value>v</arg_value>\n</tool_call>"),
          none, []⟩, none, []⟩).message = some m2 ∧
      (m2.toolCalls ≠ none ↔
        glmParse env0 (lit "I'll check.\n<tool_call>f\n<arg_key>k</arg_key>\n<arg_value>v</arg_value>\n</tool_call>") ≠ []) := by
  have h := c4_amended env0
    ⟨some (lit "glm-4.5-air"),
     some [⟨some ⟨some (lit "assistant"),
       some (lit "I'll check.\n<tool_call>f\n<arg_key>k</arg_key>\n<arg_value>v</arg_value>\n</tool_call>"),
       none, []⟩, none, []⟩], []⟩
    [⟨some ⟨some (lit "assistant"),
       some (lit "I'll check.\n<tool_call>f\n<arg_key>k</arg_key>\n<arg_value>v</arg_value>\n</tool_call>"),
       none, []⟩, none, []⟩]
    ⟨some ⟨some (lit "assistant"),
       some (lit "I'll check.\n<tool_call>f\n<arg_key>k</arg_key>\n<arg_value>v</arg_value>\n</tool_call>"),
       none, []⟩, none, []⟩
    ⟨some (lit "assistant"),
       some (lit "I'll check.\n<tool_call>f\n<arg_key>k</arg_key>\n<arg_value>v</arg_value>\n</tool_call>"),
       none, []⟩
    (lit "I'll check.\n<tool_call>f\n<arg_key>k</arg_key>\n<arg_value>v</arg_value>\n</tool_call>")
    rfl rfl rfl rfl
  obtain ⟨m2, hmsg, hiff, _⟩ := h.2
  exact ⟨m2, hmsg, hiff⟩

/-- C9, counterexample: a document whose message content holds no GLM
marker is still changed by `convert_response`, because the shared sanitizer
removes the empty `<think></think>` span from the content. -/
theorem c9_counterexample :
    (∀ cs, docThink.choices = some cs → ∀ ch ∈ cs, ∀ m, ch.message = some m →
      ∀ c, m.content = some c → glmHasPartial c = false) ∧
    convertResponse (glmOps env0) docThink ≠ docThink := by
  constructor
  · intro cs hcs ch hch m hm c hc
    simp [docThink] at hcs
    subst hcs
    simp at hch
    subst hch
    simp [docThink] at hm
    rw [← hm] at hc
    simp at hc
    subst hc
    decide
  · decide

/-- C9, amended: `convert_response` returns the document unchanged whenever
no message content contains a marker of the resolved converter and no
message content contains an empty `<think></think>` span (the shared
sanitizer being the only transform applied in that case); the OpenAI
converter's override is the identity on every document. -/
theorem c9_amended :
    (∀ (ops : ConvOps) (r : ResponseDoc),
      (∀ cs, r.choices = some cs → ∀ ch ∈ cs, ∀ m, ch.message = some m →
        ∀ c, m.content = some c →
          ops.hasPartial c = false ∧ hasEmptyThink c = false) →
      convertResponse ops r = r) ∧
    (∀ r : ResponseDoc, openaiConvertResponse r = r) := by
  constructor
  · intro ops r h
    match hcs : r.choices with
    | none => simp [convertResponse, hcs]
    | some cs =>
      have hmap : cs.map (processChoice ops) = cs := by
        apply list_map_id_of
        intro ch hch
        apply processChoice_id_of_clean
        intro m hm c hc
        obtain ⟨h1, h2⟩ := h cs hcs ch hch m hm c hc
        exact ⟨h1, removeEmptyThink_id_of_no_span h2⟩
      cases r with
      | mk mdl chs ex =>
        simp at hcs
        simp [convertResponse, hcs, hmap]
  · intro r
    rfl

/-- C9, witness for the amended theorem at a concrete marker-free
document. -/
theorem c9_witness :
    convertResponse (glmOps env0)
      ⟨some (lit "glm-4.5-air"),
       some [⟨some ⟨some (lit "assistant"), some (lit "hello"), none, []⟩, some (lit "stop"), []⟩],
       []⟩ =
      ⟨some (lit "glm-4.5-air"),
       some [⟨some ⟨some (lit "assistant"), some (lit "hello"), none, []⟩, some (lit "stop"), []⟩],
       []⟩ := by
  apply c9_amended.1
  intro cs hcs ch hch m hm c hc
  simp at hcs
  subst hcs
  simp at hch
  subst hch
  simp at hm
  rw [← hm] at hc
  simp at hc
  subst hc
  exact ⟨by decide, by decide⟩

/-- C5, confirmed: converter selection returns PassThrough for an empty
model name over any registration list (no match predicate is consulted),
otherwise the first registered converter whose predicate is true, which is
the first-match cascade Qwen3-Coder, Qwen3, GLM, OpenAI, Claude,
PassThrough; in particular a name matching the qwen3-coder pattern always
selects the Qwen3-Coder converter, never the more general Qwen3 one
registered after it. -/
theorem c5_selection :
    (∀ ks : List ConvKind, getConverterWith ks [] = ConvKind.passthrough) ∧
    (∀ name : List Char, name ≠ [] →
      getConverter name =
        (if qwen3CoderCanHandle name then ConvKind.qwen3coder
         else if qwen3CanHandle name then ConvKind.qwen3
         else if glmCanHandle name then ConvKind.glm
         else if openaiCanHandle name then ConvKind.openai
         else if claudeCanHandle name then ConvKind.claude
         else ConvKind.passthrough)) ∧
    (∀ name : List Char, qwen3CoderCanHandle name = true →
      getConverter name = ConvKind.qwen3coder) := by
  have hmain : ∀ name : List Char, name ≠ [] →
      getConverter name =
        (if qwen3CoderCanHandle name then ConvKind.qwen3coder
         else if qwen3CanHandle name then ConvKind.qwen3
         else if glmCanHandle name then ConvKind.glm
         else if openaiCanHandle name then ConvKind.openai
         else if claudeCanHandle name then ConvKind.claude
         else ConvKind.passthrough) := by
    intro name h
    have hne : name.isEmpty = false := by simpa [List.isEmpty_iff] using h
    cases h1 : qwen3CoderCanHandle name <;>
      cases h2 : qwen3CanHandle name <;>
        cases h3 : glmCanHandle name <;>
          cases h4 : openaiCanHandle name <;>
            cases h5 : claudeCanHandle name <;>
              simp [getConverter, getConverterWith, registeredKinds, hne,
                List.find?, kindCanHandle, h1, h2, h3, h4, h5]
  refine ⟨?_, hmain, ?_⟩
  · intro ks
    rfl
  · intro name h1
    have hne : name ≠ [] := by
      intro hcontra
      subst hcontra
      simp [qwen3CoderCanHandle] at h1
    rw [hmain name hne, if_pos h1]

/-- C5, witness for the selection theorem at concrete model names. -/
theorem c5_witness :
    getConverterWith registeredKinds [] = ConvKind.passthrough ∧
    getConverter (lit "qwen3-coder-2") = ConvKind.qwen3coder :=
  ⟨c5_selection.1 registeredKinds, c5_selection.2.2 (lit "qwen3-coder-2") (by decide)⟩

/-- C10, confirmed: the factory registers no Devstral converter, so any
model name that matches the Devstral pattern but no registered family's
pattern selects the PassThrough converter (e.g. `devstral-small`), whose
parse finds nothing and whose detection is always false; consequently the
non-streaming transform never adds `tool_calls` or touches `finish_reason`,
and the streaming pipeline forwards every frame unchanged followed by
`[DONE]` — Devstral `[TOOL_CALLS]` markup is never converted. -/
theorem c10_no_devstral :
    (∀ name : List Char,
      devstralCanHandle name = true →
      qwen3CoderCanHandle name = false → qwen3CanHandle name = false →
      glmCanHandle name = false → openaiCanHandle name = false →
      claudeCanHandle name = false →
      getConverter name = ConvKind.passthrough) ∧
    getConverter (lit "devstral-small") = ConvKind.passthrough ∧
    (∀ content : List Char,
      passthroughOps.parse content = [] ∧ passthroughOps.hasPartial content = false) ∧
    (∀ (r : ResponseDoc) (cs : List Choice), r.choices = some cs →
      (convertResponse passthroughOps r).choices =
        some (cs.map (processChoice passthroughOps)) ∧
      ∀ ch ∈ cs,
        (processChoice passthroughOps ch).message.map Message.toolCalls =
          ch.message.map Message.toolCalls ∧
        (processChoice passthroughOps ch).finishReason = ch.finishReason) ∧
    (∀ (env : Env) (chunks : List Chunk),
      clientFrames passthroughOps env chunks = chunks.map Frame.chunk ++ [Frame.done]) := by
  refine ⟨?_, by decide, ?_, ?_, ?_⟩
  · intro name hdev h1 h2 h3 h4 h5
    have hne : name ≠ [] := by
      intro hcontra
      subst hcontra
      simp [devstralCanHandle] at hdev
    rw [c5_selection.2.1 name hne, if_neg (by simp [h1]), if_neg (by simp [h2]),
      if_neg (by simp [h3]), if_neg (by simp [h4]), if_neg (by simp [h5])]
  · intro content
    exact ⟨rfl, rfl⟩
  · intro r cs hcs
    refine ⟨by simp [convertResponse, hcs], ?_⟩
    intro ch hch
    match hm : ch.message with
    | none => simp [processChoice, hm]
    | some m =>
      match hc : m.content with
      | none => simp [processChoice, hm, hc]
      | some c =>
        have hkey := processChoice_of_no_partial passthroughOps hm hc rfl
        rw [hkey]
        by_cases hct : removeEmptyThink c = c
        · simp [hct]
          exact ⟨m, hm, rfl⟩
        · simp [hct, hm]
  · intro env chunks
    have hrun := runStream_passthrough env chunks initHState rfl
    simp [clientFrames, hrun.1, finalize, hrun.2]

/-- C10, witness at concrete inputs: the Devstral-looking model name and a
one-frame stream. -/
theorem c10_witness :
    getConverter (lit "devstral-small") = ConvKind.passthrough ∧
    clientFrames passthroughOps env0 [chunkProse] =
      [Frame.chunk chunkProse, Frame.done] :=
  ⟨c10_no_devstral.1 (lit "devstral-small") (by decide) (by decide) (by decide)
      (by decide) (by decide) (by decide),
   by simpa using c10_no_devstral.2.2.2.2 env0 [chunkProse]⟩

/-- C2, counterexample: in the scenario-A stream the client does not
receive "the single tool-call frame, one terminal frame, then [DONE]".  The
prose frame is forwarded before the tool call completes, and once the
tool-call frame is emitted the finalizer produces nothing: the actual
sequence is prose frame, synthesized tool-call frame, `[DONE]`, and no frame
of the stream is a terminal frame with finish_reason "stop". -/
theorem c2_counterexample :
    clientFrames (glmOps env0) env0 [chunkProse, chunkToolCall] =
      [Frame.chunk chunkProse, Frame.chunk chunkSynth, Frame.done] ∧
    (∀ f ∈ clientFrames (glmOps env0) env0 [chunkProse, chunkToolCall],
      f ≠ Frame.chunk stopChunk ∧
      frameFinishReasons f ≠ [some (lit "stop")]) :=
  ⟨by decide, by decide⟩

/-- C2, amended: once the state machine has emitted a synthesized tool-call
frame (`tool_call_complete`), a subsequent frame whose first choice carries
no (or empty) delta content is swallowed — not forwarded and not replaced by
any manufactured frame — and finalization produces no terminal frame at all;
in the scenario-A stream the client receives the prose frame forwarded
unmodified, then the single synthesized tool-call frame with finish_reason
"tool_calls", then `[DONE]` directly.  (The manufactured stop frame exists
only for streams whose detected tool call never completes, see C3.) -/
theorem c2_amended :
    (∀ (ops : ConvOps) (env : Env) (st : HState) (ch : Chunk)
      (choice : ChunkChoice) (l : List ChunkChoice),
      st.detected = true → st.complete = true →
      ch.choices = choice :: l →
      ((choice.delta.getD ⟨none, none, none⟩).content = none ∨
        (choice.delta.getD ⟨none, none, none⟩).content = some []) →
      processChunk ops env st ch = (st, none)) ∧
    (∀ st : HState, st.complete = true → finalize st = none) ∧
    clientFrames (glmOps env0) env0 [chunkProse, chunkToolCall] =
      [Frame.chunk chunkProse, Frame.chunk chunkSynth, Frame.done] := by
  refine ⟨?_, ?_, by decide⟩
  · intro ops env st ch choice l hdet hcomp hch hcontent
    rcases hcontent with hcon | hcon <;>
      simp [processChunk, hch, hcon, hdet, hcomp]
  · intro st hcomp
    simp [finalize, hcomp]

/-- C2, witness for the amended theorem at a concrete post-emission state
and a finish_reason-only terminal frame. -/
theorem c2_witness :
    processChunk (glmOps env0) env0 ⟨lit "buf", true, true⟩
      ⟨none, none, none, none, [⟨some 0, none, some (lit "stop")⟩]⟩ =
      (⟨lit "buf", true, true⟩, none) ∧
    finalize ⟨lit "buf", true, true⟩ = none :=
  ⟨c2_amended.1 (glmOps env0) env0 ⟨lit "buf", true, true⟩
      ⟨none, none, none, none, [⟨some 0, none, some (lit "stop")⟩]⟩
      ⟨some 0, none, some (lit "stop")⟩ [] rfl rfl rfl (Or.inl rfl),
   c2_amended.2.1 ⟨lit "buf", true, true⟩ rfl⟩

/-- C3, confirmed: a content frame whose accumulated buffer shows a partial
but incomplete tool-call marker is absorbed into the buffer and suppressed
(nothing forwarded, nothing synthesized); a stream that ends detected but
never complete finalizes to exactly the manufactured stop frame, discarding
the buffered markup; the scenario-C stream (single delta
`<tool_call>fetch_x`, then `[DONE]`) yields zero content frames, the stop
frame, then `[DONE]`. -/
theorem c3_truncated :
    (∀ (ops : ConvOps) (env : Env) (st : HState) (ch : Chunk)
      (choice : ChunkChoice) (l : List ChunkChoice) (c : List Char),
      ch.choices = choice :: l →
      (choice.delta.getD ⟨none, none, none⟩).content = some c →
      c ≠ [] →
      ops.hasPartial (st.buffer ++ c) = true →
      ops.isComplete (st.buffer ++ c) = false →
      processChunk ops env st ch = (⟨st.buffer ++ c, true, st.complete⟩, none)) ∧
    (∀ st : HState, st.detected = true → st.complete = false →
      finalize st = some stopChunk) ∧
    clientFrames (glmOps env0) env0 [chunkTruncated] =
      [Frame.chunk stopChunk, Frame.done] := by
  refine ⟨?_, ?_, by decide⟩
  · intro ops env st ch choice l c hch hcon hcne hp hic
    have hce : c.isEmpty = false := by simpa [List.isEmpty_iff] using hcne
    simp [processChunk, hch, hcon, hce, hp, hic]
  · intro st hdet hcomp
    simp [finalize, hdet, hcomp]

/-- C3, witness for the theorem at the concrete scenario-C frame and
state. -/
theorem c3_witness :
    processChunk (glmOps env0) env0 initHState chunkTruncated =
      (⟨lit "<tool_call>fetch_x", true, false⟩, none) ∧
    finalize ⟨lit "<tool_call>fetch_x", true, false⟩ = some stopChunk :=
  ⟨c3_truncated.1 (glmOps env0) env0 initHState chunkTruncated
      ⟨some 0, some ⟨some (lit "assistant"), some (lit "<tool_call>fetch_x"), none⟩, none⟩
      [] (lit "<tool_call>fetch_x") rfl rfl (by decide) (by decide) (by decide),
   c3_truncated.2.1 ⟨lit "<tool_call>fetch_x", true, false⟩ rfl rfl⟩
